import Mathlib

/-!
Shallow embedding of the discovery-cache/resolver (src/config.js) and the
watch-resumption state machine (src/index.js) of
node-red-contrib-kubernetes-client, together with theorems settling the
frozen claims about the spec.

Modelling conventions, stated once here:
* JavaScript strings are Lean `String`; string splitting and lowering are
  reimplemented over the character list so that the kernel can evaluate them
  (`jsSplit`, `jsToLower` agree with `String.split` / `.toLowerCase()` of JS
  on the inputs that occur: no surrogate issues arise for API identifiers).
* resourceVersion values travel as non-empty decimal strings in the source;
  they are carried as `Nat` here.  A present value is JS-truthy (even "0" is a
  non-empty string), an absent one is falsy; `Number(null) = 0` is `jsNumber`.
* fallible HTTP calls are a pure function `String → HttpResponse` from the
  request topic to the response; a thrown transport error behaves like a
  non-200 status at every call site modelled here, so it is folded into that.
* cache reads are a pure function `String → Option ResourceDoc`; cache writes
  performed by a call are returned as an explicit `CacheWrite` list, each
  carrying the effective TTL (a `set` without an explicit ttl uses the LRU
  default maxAge, which the constructor sets to `SUCCESS_CACHE_TIME`).
* buildWatchlessURI round-trips through uri-js and query-string; both are
  modelled at string level from their observable behavior on the
  server-relative references this node passes them: URI.parse separates the
  fragment at the first hash and the query at the first question mark, and
  serialize with only path and query drops the fragment; URI.normalize is
  the identity on the already-normal references in scope; queryString.parse
  splits on ampersands and at the first equals sign, skipping empty
  segments; queryString.stringify sorts keys with the default comparator
  and always returns a string, so URI.serialize appends the question mark
  separator unconditionally; percent re-encoding is not modelled.
-/

namespace K8s

/-- Failure cache TTL from src/config.js line 8: five minutes in ms. -/
def FAILURE_CACHE_TIME : Nat := 5 * 60 * 1000

/-- Success cache TTL from src/config.js line 9 (also the LRU default
maxAge set in the constructor): one hour in ms. -/
def SUCCESS_CACHE_TIME : Nat := 1 * 60 * 60 * 1000

/-- Splits a character list at a separator, keeping empty segments, exactly
like the JS `String.prototype.split` with a single-character separator. -/
def splitCharsAux (sep : Char) : List Char → List Char → List (List Char)
  | [], acc => [acc.reverse]
  | c :: cs, acc =>
    if c == sep then acc.reverse :: splitCharsAux sep cs []
    else splitCharsAux sep cs (c :: acc)

/-- Kernel-evaluable model of the JS `s.split(sep)` for a one-character
separator. -/
def jsSplit (sep : Char) (s : String) : List String :=
  (splitCharsAux sep s.data []).map (fun cs => ⟨cs⟩)

/-- Kernel-evaluable model of the JS `s.toLowerCase()` on ASCII identifiers. -/
def jsToLower (s : String) : String :=
  ⟨s.data.map Char.toLower⟩

/-- Model of the JS `array.pop()` result on the output of `split`: the last
segment (`split` never returns an empty array, so the default is unreachable). -/
def lastSegment (s : String) : String :=
  (jsSplit '/' s).getLastD s

/-- One entry of a discovery resource list, as consumed by the resolver:
`kind`, REST `name`, `namespaced` flag (spec section 3, ResourceDescriptor). -/
structure APIResource where
  kind : String
  name : String
  namespaced : Bool
deriving DecidableEq

/-- One resource list returned by `/api/{v}` or `/apis/{g}/{v}`, as used by
getApiGroupVersion: its groupVersion plus its resources. -/
structure APIResourceList where
  groupVersion : String
  resources : List APIResource
deriving DecidableEq

/-- Body of a discovery response as the resolver reads it.  The source only
ever accesses `res.resources` (config.js line 349), which may be absent, e.g.
on an error body; absence is `none`. -/
structure ResourceDoc where
  resources? : Option (List APIResource)
deriving DecidableEq

/-- HTTP response as returned by makeHttpRestRequest: the source reads
`statusCode` and `body`. -/
structure HttpResponse where
  statusCode : Nat
  body : ResourceDoc
deriving DecidableEq

/-- Reading the misspelled property `res.stausCode` (config.js line 144).
The response object only carries `statusCode`, so this JS property access
yields `undefined`, modelled as `none`. -/
def stausCode (_ : HttpResponse) : Option Nat := none

/-- Models the TTL decision of getAPIGroups, config.js lines 144 to 150:
the branch tests `res.stausCode == 200` and caches with the default
(success) maxAge when it holds, and with `FAILURE_CACHE_TIME` otherwise. -/
def getAPIGroupsCacheTTL (res : HttpResponse) : Nat :=
  if stausCode res == some 200 then SUCCESS_CACHE_TIME else FAILURE_CACHE_TIME

/-- The filter predicate of getApiGroupVersion, config.js lines 251 to 260:
when a bare version is supplied the last `/`-segment of the groupVersion must
equal it, and some resource of the list must match the kind
case-insensitively.  A JS-falsy (absent or empty) version argument is `none`. -/
def matchesKindVersion (kind : String) (version? : Option String)
    (rl : APIResourceList) : Bool :=
  (match version? with
   | some version => lastSegment rl.groupVersion == version
   | none => true)
  && rl.resources.any (fun r => jsToLower r.kind == jsToLower kind)

/-- Embedding of getApiGroupVersion, config.js lines 249 to 265, with the
preferred-version resource lists (the result of `getAPIResources(true)`)
passed in.  Returns the unique matching groupVersion, or `none` when zero or
several lists match (`matches.length == 1` is the singleton pattern). -/
def getApiGroupVersion (preferred : List APIResourceList) (kind : String)
    (version? : Option String) : Option String :=
  match preferred.filter (matchesKindVersion kind version?) with
  | [rl] => some rl.groupVersion
  | _ => none

/-- URL root selection of config.js lines 299 to 302: `/api` exactly for the
core `v1`, `/apis` for everything else. -/
def prefixFor (apiVersion : String) : String :=
  if apiVersion == "v1" then "/api" else "/apis"

/-- Resolution of a missing apiVersion, config.js lines 291 to 293: a
JS-falsy (absent, null or empty) apiVersion is looked up from the kind alone. -/
def resolveApiVersion (preferred : List APIResourceList) (kind : String)
    (apiVersion? : Option String) : Option String :=
  match apiVersion? with
  | some v => some v
  | none => getApiGroupVersion preferred kind none

/-- One discoveryCache.set call: the key written and the effective TTL. -/
structure CacheWrite where
  key : String
  ttl : Nat
deriving DecidableEq

/-- Outcome of the cache-or-fetch block of buildResourceSelfLink: the value
of the mutable apiVersion variable afterwards, the document bound to `res`,
the cache writes performed and the topics fetched, in order. -/
structure FetchOutcome where
  apiVersion : String
  doc : ResourceDoc
  writes : List CacheWrite
  fetched : List String
deriving DecidableEq

/-- Embedding of the cache-or-fetch block of buildResourceSelfLink,
config.js lines 310 to 347.  On a 404 the code asks getApiGroupVersion for a
fuller groupVersion and, when that yields a different value, refetches once
at `pfx ++ "/" ++ newApiVersion` — with `pfx` and `cacheKey` kept from the
original apiVersion, since the source recomputes neither (lines 328 to 341).
The JS variables cacheKey, res and res1 bind pure expressions, inlined here
(the server function stands for one response per topic during the call). -/
def fetchResourceDoc (preferred : List APIResourceList)
    (server : String → HttpResponse) (cache : String → Option ResourceDoc)
    (kind apiVersion0 pfx : String) : FetchOutcome :=
  match cache (pfx ++ "/" ++ apiVersion0) with
  | some doc => ⟨apiVersion0, doc, [], []⟩
  | none =>
    if (server (pfx ++ "/" ++ apiVersion0)).statusCode == 200 then
      ⟨apiVersion0, (server (pfx ++ "/" ++ apiVersion0)).body,
        [⟨pfx ++ "/" ++ apiVersion0, SUCCESS_CACHE_TIME⟩],
        [pfx ++ "/" ++ apiVersion0]⟩
    else if (server (pfx ++ "/" ++ apiVersion0)).statusCode == 404 then
      match getApiGroupVersion preferred kind (some apiVersion0) with
      | some newApiVersion =>
        if newApiVersion != apiVersion0 then
          if (server (pfx ++ "/" ++ newApiVersion)).statusCode == 200 then
            ⟨newApiVersion, (server (pfx ++ "/" ++ newApiVersion)).body,
              [⟨pfx ++ "/" ++ apiVersion0, SUCCESS_CACHE_TIME⟩],
              [pfx ++ "/" ++ apiVersion0, pfx ++ "/" ++ newApiVersion]⟩
          else
            ⟨newApiVersion, (server (pfx ++ "/" ++ newApiVersion)).body,
              [⟨pfx ++ "/" ++ apiVersion0, FAILURE_CACHE_TIME⟩],
              [pfx ++ "/" ++ apiVersion0, pfx ++ "/" ++ newApiVersion]⟩
        else
          ⟨apiVersion0, (server (pfx ++ "/" ++ apiVersion0)).body,
            [⟨pfx ++ "/" ++ apiVersion0, FAILURE_CACHE_TIME⟩],
            [pfx ++ "/" ++ apiVersion0]⟩
      | none =>
        ⟨apiVersion0, (server (pfx ++ "/" ++ apiVersion0)).body,
          [⟨pfx ++ "/" ++ apiVersion0, FAILURE_CACHE_TIME⟩],
          [pfx ++ "/" ++ apiVersion0]⟩
    else
      ⟨apiVersion0, (server (pfx ++ "/" ++ apiVersion0)).body,
        [⟨pfx ++ "/" ++ apiVersion0, FAILURE_CACHE_TIME⟩],
        [pfx ++ "/" ++ apiVersion0]⟩

/-- Errors thrown by buildResourceSelfLink: `missing apiVersion`
(config.js line 296) and `failure to lookup resource selfLink` (line 367). -/
inductive SelfLinkError where
  | missingApiVersion
  | resourceNotFound
deriving DecidableEq

/-- Result of buildResourceSelfLink: a thrown error, or a normal return
whose value may be `undefined` (`ok none`, the bare `return` of line 350). -/
inductive SelfLinkResult where
  | err (e : SelfLinkError)
  | ok (link? : Option String)
deriving DecidableEq

/-- Embedding of the tail of buildResourceSelfLink, config.js lines 349
to 368: bare return when the document has no `resources` field, otherwise a
case-sensitive kind lookup and the path assembly of lines 357 to 365. -/
def selfLinkFromDoc (pfx apiVersion : String) (doc : ResourceDoc)
    (kind name nspace : String) : SelfLinkResult :=
  match doc.resources? with
  | none => .ok none
  | some resources =>
    match resources.find? (fun r => r.kind == kind) with
    | some resource =>
      .ok (some (if resource.namespaced then
        pfx ++ "/" ++ apiVersion ++ "/namespaces/" ++ nspace ++ "/"
          ++ resource.name ++ "/" ++ name
      else
        pfx ++ "/" ++ apiVersion ++ "/" ++ resource.name ++ "/" ++ name))
    | none => .err .resourceNotFound

/-- Full outcome of a buildResourceSelfLink call: result, cache writes and
fetched topics. -/
structure SelfLinkOutcome where
  result : SelfLinkResult
  writes : List CacheWrite
  fetched : List String
deriving DecidableEq

/-- Embedding of buildResourceSelfLink, config.js lines 267 to 369, after
the arity-one argument unpacking (kind, apiVersion, name, namespace are the
explicit fields; an object already carrying `metadata.selfLink` returns early
and is outside the resolution path modelled here). -/
def buildResourceSelfLink (preferred : List APIResourceList)
    (server : String → HttpResponse) (cache : String → Option ResourceDoc)
    (kind : String) (apiVersion? : Option String) (name nspace : String) :
    SelfLinkOutcome :=
  match resolveApiVersion preferred kind apiVersion? with
  | none => ⟨.err .missingApiVersion, [], []⟩
  | some apiVersion0 =>
    let pfx := prefixFor apiVersion0
    let out := fetchResourceDoc preferred server cache kind apiVersion0 pfx
    ⟨selfLinkFromDoc pfx out.apiVersion out.doc kind name nspace,
      out.writes, out.fetched⟩

/-- JS string comparison a < b, as the default Array sort comparator uses
it inside queryString.stringify: lexicographic on the character sequence
(UTF-16 code units in JS, code points here — these agree on the characters
of API endpoints). -/
def charListLt : List Char → List Char → Bool
  | _, [] => false
  | [], _ :: _ => true
  | a :: as, b :: bs =>
    if a.toNat < b.toNat then true
    else if b.toNat < a.toNat then false
    else charListLt as bs

/-- The JS comparison a < b on strings. -/
def jsStrLt (a b : String) : Bool := charListLt a.data b.data

/-- Stable sort of the query pairs by key, modelling Object.keys(...).sort()
inside queryString.stringify: the parse object holds each key once (its
duplicates grouped at the first occurrence, values in order), keys are
sorted with the default comparator, and the groups are rendered in key
order — on the pair list this is exactly a stable insertion sort by key. -/
def sortPairsByKey (ps : List (String × Option String)) :
    List (String × Option String) :=
  List.insertionSort (fun p q => jsStrLt q.1 p.1 = false) ps

/-- Characters strictly before the first occurrence of the separator. -/
def takeUntilChar (sep : Char) : List Char → List Char
  | [] => []
  | c :: cs => if c == sep then [] else c :: takeUntilChar sep cs

/-- Characters strictly after the first occurrence of the separator, when
it occurs at all. -/
def dropPastChar (sep : Char) : List Char → Option (List Char)
  | [] => none
  | c :: cs => if c == sep then some cs else dropPastChar sep cs

/-- Splits a string at the first occurrence of a delimiter, as URI.parse
does on a server-relative reference for the query (at the first question
mark) and for the fragment (at the first hash). -/
def breakAtChar (sep : Char) (s : String) : String × Option String :=
  (⟨takeUntilChar sep s.data⟩, (dropPastChar sep s.data).map (fun cs => ⟨cs⟩))

/-- Joins character lists with a separator, as Array.prototype.join does. -/
def joinChars (sep : Char) : List (List Char) → List Char
  | [] => []
  | [x] => x
  | x :: xs => x ++ sep :: joinChars sep xs

/-- Kernel-evaluable model of the JS parts.join(sep) for a one-character
separator. -/
def jsJoin (sep : Char) (parts : List String) : String :=
  ⟨joinChars sep (parts.map String.data)⟩

/-- Model of queryString.parse on the raw query string (query-string v6,
default options): split on the ampersand, skip empty segments, split each
segment at the first equals sign; a segment without one parses to a null
value.  Percent and plus decoding are not modelled: keys and values are
carried verbatim, which is faithful for components the strict encoder
leaves unchanged — the watch parameters this node manipulates among them. -/
def parseQueryParams (q : String) : List (String × Option String) :=
  ((jsSplit '&' q).filter (fun p => p != "")).map (fun p => breakAtChar '=' p)

/-- Rendering of one query pair by queryString.stringify: a null value
renders as the bare key, otherwise key=value. -/
def renderQueryParam : String × Option String → String
  | (k, none) => k
  | (k, some v) => k ++ "=" ++ v

/-- Model of queryString.stringify with default options: keys sorted with
the default comparator, each pair rendered, empty renders skipped, all
joined with ampersands.  The result is always a string — never undefined —
which is what makes URI.serialize emit the question mark separator. -/
def stringifyQueryParams (ps : List (String × Option String)) : String :=
  jsJoin '&' (((sortPairsByKey ps).map renderQueryParam).filter
    (fun r => r != ""))

/-- The object queryString.parse returns for the query component of
URI.parse: parse of the string when a query is present, the empty object
otherwise (parse of a non-string input returns the empty object). -/
def parsedQuery : Option String → List (String × Option String)
  | none => []
  | some q => parseQueryParams q

/-- The reference before its fragment: URI.parse separates the fragment at
the first hash, and serialize with only path and query then drops it. -/
def preHash (uri : String) : String := (breakAtChar '#' uri).1

/-- The path component URI.parse reports for a server-relative reference:
the part before the first question mark.  URI.normalize is modelled as the
identity on the already-normal endpoint references in scope. -/
def pathPart (uri : String) : String := (breakAtChar '?' (preHash uri)).1

/-- The raw query component of URI.parse: the part after the first question
mark, absent when there is none. -/
def rawQuery (uri : String) : Option String :=
  (breakAtChar '?' (preHash uri)).2

/-- The watch-free path of config.js lines 115 to 121 and 126: split on the
slash, drop every part whose lower-casing is watch, join back. -/
def watchlessPath (path : String) : String :=
  jsJoin '/' ((jsSplit '/' path).filter (fun item => jsToLower item != "watch"))

/-- The parsed query after the deletion of the watch key at config.js line
124: every pair under that key is removed. -/
def queryPairs (uri : String) : List (String × Option String) :=
  (parsedQuery (rawQuery uri)).filter (fun kv => kv.1 != "watch")

/-- Embedding of buildWatchlessURI, config.js lines 110 to 133, at string
level: parse (dropping the fragment), filter the path parts, delete the
watch query key, and re-serialize.  queryString.stringify always returns a
string, so the serializer appends the question mark separator even when the
remaining query is empty. -/
def buildWatchlessURI (uri : String) : String :=
  watchlessPath (pathPart uri) ++ "?" ++ stringifyQueryParams (queryPairs uri)

/-- Shape invariant of the pairs parseQueryParams produces: key and value
are free of the ampersand, the key is free of the equals sign, and a bare
(null-valued) key is nonempty — exactly what makes rendering and reparsing
reproduce the pair. -/
def wfPair (pr : String × Option String) : Prop :=
  '&' ∉ pr.1.data ∧ '=' ∉ pr.1.data ∧
    (match pr.2 with
     | some v => '&' ∉ v.data
     | none => pr.1 ≠ "")

/-- JS value of the mutable resourceVersion variables of the watch node:
`false` (unset), `null`, or a numeric string carried as a `Nat`. -/
inductive RV where
  | unset
  | null
  | num (n : Nat)
deriving DecidableEq

/-- Response to the `limit: 1` list request used by the CURRENT strategies:
its status code and the `body.metadata.resourceVersion` it reports. -/
structure ListResponse where
  statusCode : Nat
  rv : Nat
deriving DecidableEq

/-- The per-node context store entries read by startWatch: the persisted
endpointHash and resourceVersion checkpoint, each possibly absent. -/
structure NodeContext where
  endpointHash? : Option String
  resourceVersion? : Option Nat
deriving DecidableEq

/-- The restore read `node.context().get("resourceVersion") || null` of
index.js lines 152, 159 and 167: a stored value is a non-empty numeric
string, hence truthy; absence gives null. -/
def restoredRV (ctx : NodeContext) : RV :=
  match ctx.resourceVersion? with
  | some n => RV.num n
  | none => RV.null

/-- The CURRENT strategy body, index.js lines 127 to 141 (also 169 to 183):
a limit-1 list; on HTTP 200 the reported resourceVersion, otherwise null (a
thrown transport error also lands on null via the catch). -/
def currentRV (lr : ListResponse) : RV :=
  if lr.statusCode == 200 then RV.num lr.rv else RV.null

/-- Embedding of the initialResourceVersionStrategy switch of startWatch,
index.js lines 125 to 186.  The default case of the switch is shared with
`RESTORE-CURRENT`; the restore variants honor the stored checkpoint only
when the stored endpointHash equals the hash of the live session. -/
def initialRV (strategy : String) (ctx : NodeContext) (endpointHash : String)
    (lr : ListResponse) : RV :=
  match strategy with
  | "CURRENT" => currentRV lr
  | "NULL" => RV.null
  | "ZERO" => RV.num 0
  | "RESTORE-NULL" =>
    if ctx.endpointHash? == some endpointHash then restoredRV ctx else RV.null
  | "RESTORE-ZERO" =>
    if ctx.endpointHash? == some endpointHash then restoredRV ctx else RV.num 0
  | _ =>
    if ctx.endpointHash? == some endpointHash then restoredRV ctx
    else currentRV lr

/-- The final sanity check of index.js lines 189 to 192:
`if (resourceVersion !== null && !(resourceVersion >= 0))` reset to null.  A
numeric carrier is never negative, `null` fails the first conjunct, and for
the JS `false` the comparison `false >= 0` coerces to `0 >= 0` and holds, so
every constructor is kept; the reset only fires for non-numeric strings,
which are outside the numeric carrier of this model. -/
def sanitizeRV : RV → RV
  | RV.null => RV.null
  | RV.num n => RV.num n
  | RV.unset => RV.unset

/-- The mutable per-session variables consulted by the resourceVersion
selection of startWatch. -/
structure StartState where
  forced : RV
  latest : Option Nat
  resourceVersion : RV
deriving DecidableEq

/-- Embedding of the resourceVersion selection of startWatch, index.js lines
117 to 192: a pending forced value wins and is reset to `false`; else a
truthy latestResourceVersion; else an already-set resourceVersion (strict
`!== false`); else the configured initial strategy.  Returns the chosen
value after the sanity check, paired with the forced variable afterwards. -/
def selectResourceVersion (s : StartState) (strategy : String)
    (ctx : NodeContext) (endpointHash : String) (lr : ListResponse) :
    RV × RV :=
  if s.forced != RV.unset then
    (sanitizeRV s.forced, RV.unset)
  else
    match s.latest with
    | some n => (sanitizeRV (RV.num n), s.forced)
    | none =>
      if s.resourceVersion != RV.unset then
        (sanitizeRV s.resourceVersion, s.forced)
      else
        (sanitizeRV (initialRV strategy ctx endpointHash lr), s.forced)

/-- The 410 recovery switch of the watch event handler, index.js lines 226
to 249: forcedResourceVersion is preset to null, then ZERO forces 0, NULL
forces null, and the default (shared with CURRENT) re-lists with limit 1 and
keeps the preset null unless the list returns HTTP 200. -/
def handleGone (strategy : String) (lr : ListResponse) : RV :=
  match strategy with
  | "ZERO" => RV.num 0
  | "NULL" => RV.null
  | _ => if lr.statusCode == 200 then RV.num lr.rv else RV.null

/-- The guard of the 410 recovery, index.js lines 222 to 225: it runs only
for an ERROR object with code 410 and reason Gone or Expired; otherwise the
forced variable is left as it was. -/
def handleErrorEvent (strategy : String) (lr : ListResponse) (code : Nat)
    (reason : String) (forced : RV) : RV :=
  if code == 410 && (reason == "Gone" || reason == "Expired") then
    handleGone strategy lr
  else forced

/-- The JS `Number` coercion applied to latestResourceVersion at index.js
line 255: `Number(null) = 0`, a numeric string maps to its value. -/
def jsNumber : Option Nat → Nat
  | none => 0
  | some n => n

/-- The checkpoint-tracking slice of the session: latestResourceVersion, the
two context entries, the endpointHashHasBeenSet flag, and a log of every
`context().set("resourceVersion", _)` call. -/
structure EventTrack where
  latest : Option Nat
  ctxRV? : Option Nat
  ctxHash? : Option String
  hashSet : Bool
  rvWrites : List Nat
deriving DecidableEq

/-- Embedding of the checkpoint update of the watch event handler, index.js
lines 253 to 263: a truthy incoming resourceVersion strictly greater than
`Number(latestResourceVersion)` replaces it and is persisted; the
endpointHash is persisted alongside the first such write. -/
def applyEventRV (endpointHash : String) (s : EventTrack) (rv? : Option Nat) :
    EventTrack :=
  match rv? with
  | none => s
  | some rv =>
    if jsNumber s.latest < rv then
      { latest := some rv
        ctxRV? := some rv
        ctxHash? := if s.hashSet then s.ctxHash? else some endpointHash
        hashSet := true
        rvWrites := s.rvWrites ++ [rv] }
    else s

/-- Folds a sequence of received watch events (each contributing its
`object.metadata.resourceVersion`, absent for frames without one) through
the checkpoint update, in delivery order. -/
def runEvents (endpointHash : String) (s : EventTrack)
    (events : List (Option Nat)) : EventTrack :=
  events.foldl (applyEventRV endpointHash) s

/-- The connection-management slice of the session as startWatch touches it
on entry: the `node.watch` field (an abstract stream id), the connecting
flag, the status text, and a log of the streams aborted and destroyed. -/
structure SessionShell where
  watch? : Option Nat
  connecting : Bool
  statusText : String
  destroyed : List Nat
deriving DecidableEq

/-- Embedding of the entry of startWatch, index.js lines 99 to 111: any
existing stream is aborted, destroyed and deleted first (lines 100 to 104),
then a call made while connecting returns, and only otherwise does the node
report Connecting and set the connecting flag.  The Bool records whether the
call proceeded past the guard. -/
def startWatchEntry (s : SessionShell) : SessionShell × Bool :=
  let s1 : SessionShell :=
    match s.watch? with
    | some w => { s with watch? := none, destroyed := s.destroyed ++ [w] }
    | none => s
  if s1.connecting then
    (s1, false)
  else
    ({ s1 with statusText := "connecting", connecting := true }, true)

end K8s

namespace K8s

/-! Concrete scenarios used by counterexamples and witnesses. -/

/-- Server for the Pod example: the core resource list at /api/v1 knows the
namespaced Pod kind under the REST name pods. -/
def podServer : String → HttpResponse := fun t =>
  if t == "/api/v1" then ⟨200, ⟨some [⟨"Pod", "pods", true⟩]⟩⟩ else ⟨404, ⟨none⟩⟩

/-- Preferred resource lists in which the kind Widget lives under the group
qualified version foo.example.com/v1. -/
def c1Preferred : List APIResourceList :=
  [⟨"foo.example.com/v1", [⟨"Widget", "widgets", true⟩]⟩]

/-- Server that reports 404 at /api/v1 and serves the Widget list at the
old-root topic /api/foo.example.com/v1 that the retry of the source
actually requests. -/
def c1Server : String → HttpResponse := fun t =>
  if t == "/api/foo.example.com/v1" then ⟨200, ⟨some [⟨"Widget", "widgets", true⟩]⟩⟩
  else ⟨404, ⟨none⟩⟩

/-- Preferred resource lists for the C4 counterexample, same shape. -/
def c4Preferred : List APIResourceList :=
  [⟨"foo.example.com/v1", [⟨"Widget", "widgets", true⟩]⟩]

/-- Server that would serve the Widget list at the re-determined root
/apis/foo.example.com/v1 but reports 404 everywhere else, in particular at
the topic /api/foo.example.com/v1 that the source actually retries. -/
def c4Server : String → HttpResponse := fun t =>
  if t == "/apis/foo.example.com/v1" then ⟨200, ⟨some [⟨"Widget", "widgets", true⟩]⟩⟩
  else ⟨404, ⟨none⟩⟩

/-- Preferred resource lists of the Ingress recovery example from the spec. -/
def ingPreferred : List APIResourceList :=
  [⟨"networking.k8s.io/v1beta1", [⟨"Ingress", "ingresses", true⟩]⟩]

/-- Server of the Ingress recovery example: 404 at /apis/v1beta1, success at
/apis/networking.k8s.io/v1beta1. -/
def ingServer : String → HttpResponse := fun t =>
  if t == "/apis/networking.k8s.io/v1beta1" then
    ⟨200, ⟨some [⟨"Ingress", "ingresses", true⟩]⟩⟩
  else ⟨404, ⟨none⟩⟩

/-- Fresh checkpoint-tracking state: nothing seen, nothing persisted. -/
def c2S0 : EventTrack := ⟨none, none, none, false, []⟩

/-- Session shell with a live stream while a connect is in progress. -/
def c7S : SessionShell := ⟨some 7, true, "connected", []⟩

end K8s

namespace K8s

/-! Helper lemmas shared by several proofs. -/

theorem applyEventRV_none (endpointHash : String) (s : EventTrack) :
    applyEventRV endpointHash s none = s := rfl

theorem applyEventRV_some (endpointHash : String) (s : EventTrack) (rv : Nat) :
    applyEventRV endpointHash s (some rv)
      = if jsNumber s.latest < rv then
          ⟨some rv, some rv,
            if s.hashSet then s.ctxHash? else some endpointHash,
            true, s.rvWrites ++ [rv]⟩
        else s := rfl

theorem selfLinkFromDoc_ok_some {pfx apiVersion : String} {doc : ResourceDoc}
    {kind name nspace e : String}
    (h : selfLinkFromDoc pfx apiVersion doc kind name nspace
          = SelfLinkResult.ok (some e)) :
    ∃ rs r, doc.resources? = some rs
      ∧ rs.find? (fun x => x.kind == kind) = some r
      ∧ e = (if r.namespaced then
              pfx ++ "/" ++ apiVersion ++ "/namespaces/" ++ nspace ++ "/"
                ++ r.name ++ "/" ++ name
            else
              pfx ++ "/" ++ apiVersion ++ "/" ++ r.name ++ "/" ++ name) := by
  obtain ⟨ors⟩ := doc
  cases ors with
  | none => simp [selfLinkFromDoc] at h
  | some rs =>
    cases hfind : rs.find? (fun x => x.kind == kind) with
    | none => simp [selfLinkFromDoc, hfind] at h
    | some r =>
      simp only [selfLinkFromDoc, hfind, SelfLinkResult.ok.injEq,
        Option.some.injEq] at h
      exact ⟨rs, r, rfl, hfind, h.symm⟩

theorem applyEventRV_latest_mono (endpointHash : String) (s : EventTrack)
    (rv? : Option Nat) :
    jsNumber s.latest ≤ jsNumber (applyEventRV endpointHash s rv?).latest := by
  cases rv? with
  | none => exact le_refl _
  | some rv =>
    rw [applyEventRV_some]
    by_cases h : jsNumber s.latest < rv
    · rw [if_pos h]
      exact le_of_lt h
    · rw [if_neg h]

/-- C1 (amended): for every resolved resource reference the returned path is
`{pfx}/{apiVersion}/namespaces/{namespace}/{resourceName}/{name}` when the
matched descriptor is namespaced and `{pfx}/{apiVersion}/{resourceName}/{name}`
when it is not, where `pfx` is computed from the apiVersion as first resolved
(before any 404 recovery): `/api` exactly when that value is `v1`, `/apis`
otherwise, while the apiVersion in the path is the final, possibly
404-corrected value.  When no correction occurs the two coincide and the
claim holds as stated; the Pod example yields /api/v1/namespaces/ns/pods/x. -/
theorem c1_selfLink_path_shape (preferred : List APIResourceList)
    (server : String → HttpResponse) (cache : String → Option ResourceDoc)
    (kind : String) (apiVersion? : Option String) (name nspace e : String)
    (h : (buildResourceSelfLink preferred server cache kind apiVersion?
            name nspace).result = SelfLinkResult.ok (some e)) :
    ∃ apiVersion0 rs r,
      resolveApiVersion preferred kind apiVersion? = some apiVersion0
      ∧ prefixFor apiVersion0
          = (if apiVersion0 == "v1" then "/api" else "/apis")
      ∧ (fetchResourceDoc preferred server cache kind apiVersion0
          (prefixFor apiVersion0)).doc.resources? = some rs
      ∧ rs.find? (fun x => x.kind == kind) = some r
      ∧ e = (if r.namespaced then
              prefixFor apiVersion0 ++ "/"
                ++ (fetchResourceDoc preferred server cache kind apiVersion0
                      (prefixFor apiVersion0)).apiVersion
                ++ "/namespaces/" ++ nspace ++ "/" ++ r.name ++ "/" ++ name
            else
              prefixFor apiVersion0 ++ "/"
                ++ (fetchResourceDoc preferred server cache kind apiVersion0
                      (prefixFor apiVersion0)).apiVersion
                ++ "/" ++ r.name ++ "/" ++ name) := by
  unfold buildResourceSelfLink at h
  cases hres : resolveApiVersion preferred kind apiVersion? with
  | none => rw [hres] at h; exact absurd h (by simp)
  | some apiVersion0 =>
    rw [hres] at h
    dsimp only at h
    obtain ⟨rs, r, h1, h2, h3⟩ := selfLinkFromDoc_ok_some h
    exact ⟨apiVersion0, rs, r, rfl, rfl, h1, h2, h3⟩

/-- C1 witness: the amended path theorem instantiated at the Pod example of
the spec, which resolves to /api/v1/namespaces/ns/pods/x. -/
theorem c1_selfLink_path_shape_witness :
    ∃ apiVersion0 rs r,
      resolveApiVersion [] "Pod" (some "v1") = some apiVersion0
      ∧ prefixFor apiVersion0
          = (if apiVersion0 == "v1" then "/api" else "/apis")
      ∧ (fetchResourceDoc [] podServer (fun _ => none) "Pod" apiVersion0
          (prefixFor apiVersion0)).doc.resources? = some rs
      ∧ rs.find? (fun x => x.kind == "Pod") = some r
      ∧ "/api/v1/namespaces/ns/pods/x"
          = (if r.namespaced then
              prefixFor apiVersion0 ++ "/"
                ++ (fetchResourceDoc [] podServer (fun _ => none) "Pod"
                      apiVersion0 (prefixFor apiVersion0)).apiVersion
                ++ "/namespaces/" ++ "ns" ++ "/" ++ r.name ++ "/" ++ "x"
            else
              prefixFor apiVersion0 ++ "/"
                ++ (fetchResourceDoc [] podServer (fun _ => none) "Pod"
                      apiVersion0 (prefixFor apiVersion0)).apiVersion
                ++ "/" ++ r.name ++ "/" ++ "x") :=
  c1_selfLink_path_shape [] podServer (fun _ => none) "Pod" (some "v1")
    "x" "ns" "/api/v1/namespaces/ns/pods/x" (by decide)

/-- C1 counterexample: with kind Widget and apiVersion v1, a 404 at /api/v1
recovered to foo.example.com/v1 resolves to the path
/api/foo.example.com/v1/namespaces/ns/widgets/x, which matches neither
template of the claim: the root piece is /api although the apiVersion in the
path is not v1, and the path does not carry the original apiVersion either. -/
theorem c1_counterexample :
    (buildResourceSelfLink c1Preferred c1Server (fun _ => none) "Widget"
        (some "v1") "x" "ns").result
      = SelfLinkResult.ok (some "/api/foo.example.com/v1/namespaces/ns/widgets/x")
    ∧ ("/api/foo.example.com/v1/namespaces/ns/widgets/x" : String)
        ≠ "/api/v1/namespaces/ns/widgets/x"
    ∧ ("/api/foo.example.com/v1/namespaces/ns/widgets/x" : String)
        ≠ "/apis/foo.example.com/v1/namespaces/ns/widgets/x" := by
  refine ⟨by decide, by decide, by decide⟩

/-- C2: over every sequence of received watch events, latestResourceVersion
is numerically non-decreasing, and whenever one event changes the tracking
state at all, its resourceVersion was strictly greater than the previous
value, which it replaces and persists to the context store (together with
the endpointHash handling). -/
theorem c2_latest_monotone (endpointHash : String) (s : EventTrack)
    (events : List (Option Nat)) :
    jsNumber s.latest ≤ jsNumber (runEvents endpointHash s events).latest
    ∧ ∀ rv?, applyEventRV endpointHash s rv? ≠ s →
        ∃ rv, rv? = some rv ∧ jsNumber s.latest < rv
          ∧ (applyEventRV endpointHash s rv?).latest = some rv
          ∧ (applyEventRV endpointHash s rv?).ctxRV? = some rv
          ∧ (applyEventRV endpointHash s rv?).rvWrites = s.rvWrites ++ [rv] := by
  constructor
  · induction events generalizing s with
    | nil => exact le_refl _
    | cons e es ih =>
      exact le_trans (applyEventRV_latest_mono endpointHash s e)
        (ih (applyEventRV endpointHash s e))
  · intro rv? hne
    cases rv? with
    | none => exact absurd (applyEventRV_none endpointHash s) hne
    | some rv =>
      rw [applyEventRV_some] at hne
      by_cases h : jsNumber s.latest < rv
      · refine ⟨rv, rfl, h, ?_, ?_, ?_⟩ <;> rw [applyEventRV_some, if_pos h]
      · rw [if_neg h] at hne
        exact absurd rfl hne

/-- C2 witness: from the fresh state, the event carrying resourceVersion 5
changes the state, so the theorem yields the strictly-greater update and the
persisted checkpoint. -/
theorem c2_latest_monotone_witness :
    ∃ rv, (some 5 : Option Nat) = some rv ∧ jsNumber c2S0.latest < rv
      ∧ (applyEventRV "h" c2S0 (some 5)).latest = some rv
      ∧ (applyEventRV "h" c2S0 (some 5)).ctxRV? = some rv
      ∧ (applyEventRV "h" c2S0 (some 5)).rvWrites = c2S0.rvWrites ++ [rv] :=
  (c2_latest_monotone "h" c2S0 [some 5]).2 (some 5) (by decide)

end K8s

namespace K8s

/-- Preferred resource lists used to exercise the unique-match theorem. -/
def c8Preferred : List APIResourceList :=
  [⟨"networking.k8s.io/v1", [⟨"Ingress", "ingresses", true⟩]⟩]

theorem buildResourceSelfLink_someApiVersion (preferred : List APIResourceList)
    (server : String → HttpResponse) (cache : String → Option ResourceDoc)
    (kind apiVersion0 name nspace : String) :
    buildResourceSelfLink preferred server cache kind (some apiVersion0)
        name nspace
      = ⟨selfLinkFromDoc (prefixFor apiVersion0)
            (fetchResourceDoc preferred server cache kind apiVersion0
              (prefixFor apiVersion0)).apiVersion
            (fetchResourceDoc preferred server cache kind apiVersion0
              (prefixFor apiVersion0)).doc kind name nspace,
          (fetchResourceDoc preferred server cache kind apiVersion0
            (prefixFor apiVersion0)).writes,
          (fetchResourceDoc preferred server cache kind apiVersion0
            (prefixFor apiVersion0)).fetched⟩ := rfl

theorem fetchResourceDoc_404_recovery (preferred : List APIResourceList)
    (server : String → HttpResponse) (cache : String → Option ResourceDoc)
    (kind apiVersion0 pfx newApiVersion : String)
    (hcache : cache (pfx ++ "/" ++ apiVersion0) = none)
    (h404 : (server (pfx ++ "/" ++ apiVersion0)).statusCode = 404)
    (hrec : getApiGroupVersion preferred kind (some apiVersion0)
              = some newApiVersion)
    (hne : newApiVersion ≠ apiVersion0) :
    fetchResourceDoc preferred server cache kind apiVersion0 pfx
      = if (server (pfx ++ "/" ++ newApiVersion)).statusCode == 200 then
          ⟨newApiVersion, (server (pfx ++ "/" ++ newApiVersion)).body,
            [⟨pfx ++ "/" ++ apiVersion0, SUCCESS_CACHE_TIME⟩],
            [pfx ++ "/" ++ apiVersion0, pfx ++ "/" ++ newApiVersion]⟩
        else
          ⟨newApiVersion, (server (pfx ++ "/" ++ newApiVersion)).body,
            [⟨pfx ++ "/" ++ apiVersion0, FAILURE_CACHE_TIME⟩],
            [pfx ++ "/" ++ apiVersion0, pfx ++ "/" ++ newApiVersion]⟩ := by
  have hb200 : ((server (pfx ++ "/" ++ apiVersion0)).statusCode == 200) = false := by
    simp [h404]
  have hb404 : ((server (pfx ++ "/" ++ apiVersion0)).statusCode == 404) = true := by
    simp [h404]
  have hbne : (newApiVersion != apiVersion0) = true := bne_iff_ne.mpr hne
  unfold fetchResourceDoc
  rw [hcache, hb200, hb404, hrec]
  simp [hbne]

theorem selectResourceVersion_strategy_congr (s : StartState)
    (strategy₁ strategy₂ : String) (ctx : NodeContext) (endpointHash : String)
    (lr : ListResponse)
    (hin : initialRV strategy₁ ctx endpointHash lr
            = initialRV strategy₂ ctx endpointHash lr) :
    selectResourceVersion s strategy₁ ctx endpointHash lr
      = selectResourceVersion s strategy₂ ctx endpointHash lr := by
  unfold selectResourceVersion
  rw [hin]

/-- C3: after a watch ERROR frame with code 410 and reason Gone or Expired,
the forced resourceVersion is set per the configured expiry strategy (ZERO
gives 0, NULL gives null, CURRENT — shared with the default empty setting —
re-lists with limit 1 and takes the fresh value on HTTP 200, else null);
the next resourceVersion selection uses a pending forced value ahead of any
tracked latestResourceVersion (in particular a forced 0 wins over every
latest value) and resets the forced slot to unset, after which selection
falls back to latestResourceVersion: the forced value is consumed exactly
once. -/
theorem c3_gone_recovery (lr : ListResponse) (reason : String) (f0 : RV)
    (hr : reason = "Gone" ∨ reason = "Expired") :
    handleErrorEvent "ZERO" lr 410 reason f0 = RV.num 0
    ∧ handleErrorEvent "NULL" lr 410 reason f0 = RV.null
    ∧ handleErrorEvent "CURRENT" lr 410 reason f0
        = (if lr.statusCode == 200 then RV.num lr.rv else RV.null)
    ∧ handleErrorEvent "" lr 410 reason f0
        = (if lr.statusCode == 200 then RV.num lr.rv else RV.null)
    ∧ (∀ (s : StartState) (strategy : String) (ctx : NodeContext)
          (endpointHash : String) (lr2 : ListResponse),
        s.forced ≠ RV.unset →
          selectResourceVersion s strategy ctx endpointHash lr2
            = (sanitizeRV s.forced, RV.unset))
    ∧ (∀ (n : Nat) (latest : Option Nat) (rv0 : RV) (strategy : String)
          (ctx : NodeContext) (endpointHash : String) (lr2 : ListResponse),
        selectResourceVersion ⟨RV.num n, latest, rv0⟩ strategy ctx
            endpointHash lr2 = (RV.num n, RV.unset))
    ∧ (∀ (n : Nat) (rv0 : RV) (strategy : String) (ctx : NodeContext)
          (endpointHash : String) (lr2 : ListResponse),
        selectResourceVersion ⟨RV.unset, some n, rv0⟩ strategy ctx
            endpointHash lr2 = (RV.num n, RV.unset)) := by
  refine ⟨?_, ?_, ?_, ?_, ?_, ?_, ?_⟩
  · obtain rfl | rfl := hr <;> rfl
  · obtain rfl | rfl := hr <;> rfl
  · obtain rfl | rfl := hr <;> rfl
  · obtain rfl | rfl := hr <;> rfl
  · intro s strategy ctx endpointHash lr2 hf
    have hb : (s.forced != RV.unset) = true := bne_iff_ne.mpr hf
    unfold selectResourceVersion
    rw [hb]
    simp
  · intro n latest rv0 strategy ctx endpointHash lr2
    rfl
  · intro n rv0 strategy ctx endpointHash lr2
    rfl

/-- C3 witness: under strategy ZERO the forced value is 0 and the next
selection uses resourceVersion 0 despite a tracked latestResourceVersion of
999, resetting the forced slot. -/
theorem c3_gone_recovery_witness :
    selectResourceVersion ⟨RV.num 0, some 999, RV.null⟩ "" ⟨none, none⟩ "h"
        ⟨200, 1⟩ = (RV.num 0, RV.unset) :=
  (c3_gone_recovery ⟨200, 1⟩ "Gone" RV.unset (Or.inl rfl)).2.2.2.2.2.1
    0 (some 999) RV.null "" ⟨none, none⟩ "h" ⟨200, 1⟩

/-- C4 (amended): on a cache miss whose fetch returns 404, when
getApiGroupVersion recovers a different groupVersion the resolver refetches
exactly once at the corrected apiVersion under the originally determined URL
root (the root and the cache key are not re-determined), resolves from the
body of that second fetch — so a 200 there is not surfaced as the initial
404 — and caches under the original key with the success TTL on 200 and the
failure TTL otherwise. -/
theorem c4_notFound_recovery (preferred : List APIResourceList)
    (server : String → HttpResponse) (cache : String → Option ResourceDoc)
    (kind apiVersion0 name nspace newApiVersion : String)
    (hcache : cache (prefixFor apiVersion0 ++ "/" ++ apiVersion0) = none)
    (h404 : (server (prefixFor apiVersion0 ++ "/" ++ apiVersion0)).statusCode
              = 404)
    (hrec : getApiGroupVersion preferred kind (some apiVersion0)
              = some newApiVersion)
    (hne : newApiVersion ≠ apiVersion0) :
    buildResourceSelfLink preferred server cache kind (some apiVersion0)
        name nspace
      = ⟨selfLinkFromDoc (prefixFor apiVersion0) newApiVersion
            (server (prefixFor apiVersion0 ++ "/" ++ newApiVersion)).body
            kind name nspace,
          [⟨prefixFor apiVersion0 ++ "/" ++ apiVersion0,
            if (server (prefixFor apiVersion0 ++ "/" ++ newApiVersion)).statusCode
                == 200
            then SUCCESS_CACHE_TIME else FAILURE_CACHE_TIME⟩],
          [prefixFor apiVersion0 ++ "/" ++ apiVersion0,
           prefixFor apiVersion0 ++ "/" ++ newApiVersion]⟩ := by
  rw [buildResourceSelfLink_someApiVersion,
    fetchResourceDoc_404_recovery preferred server cache kind apiVersion0
      (prefixFor apiVersion0) newApiVersion hcache h404 hrec hne]
  cases hc : (server (prefixFor apiVersion0 ++ "/" ++ newApiVersion)).statusCode
      == 200 <;> simp

/-- C4 witness: the Ingress example of the spec: 404 at /apis/v1beta1,
recovery to networking.k8s.io/v1beta1, one retry under the original /apis
root, resolution from the 200 body, success TTL under the original key. -/
theorem c4_notFound_recovery_witness :
    buildResourceSelfLink ingPreferred ingServer (fun _ => none) "Ingress"
        (some "v1beta1") "x" "ns"
      = ⟨selfLinkFromDoc (prefixFor "v1beta1") "networking.k8s.io/v1beta1"
            (ingServer (prefixFor "v1beta1" ++ "/" ++ "networking.k8s.io/v1beta1")).body
            "Ingress" "x" "ns",
          [⟨prefixFor "v1beta1" ++ "/" ++ "v1beta1",
            if (ingServer (prefixFor "v1beta1" ++ "/" ++ "networking.k8s.io/v1beta1")).statusCode
                == 200
            then SUCCESS_CACHE_TIME else FAILURE_CACHE_TIME⟩],
          [prefixFor "v1beta1" ++ "/" ++ "v1beta1",
           prefixFor "v1beta1" ++ "/" ++ "networking.k8s.io/v1beta1"]⟩ :=
  c4_notFound_recovery ingPreferred ingServer (fun _ => none) "Ingress"
    "v1beta1" "x" "ns" "networking.k8s.io/v1beta1" rfl (by decide) (by decide)
    (by decide)

/-- C4 counterexample: with apiVersion v1 the URL root is /api; after the
404 at /api/v1 the recovery yields foo.example.com/v1, yet the code fetches
/api/foo.example.com/v1 — it never re-determines the root, so the topic
/apis/foo.example.com/v1 that would have answered 200 is never requested and
the call does not resolve, returning undefined. -/
theorem c4_counterexample :
    (buildResourceSelfLink c4Preferred c4Server (fun _ => none) "Widget"
        (some "v1") "x" "ns").result = SelfLinkResult.ok none
    ∧ (buildResourceSelfLink c4Preferred c4Server (fun _ => none) "Widget"
        (some "v1") "x" "ns").fetched
        = ["/api/v1", "/api/foo.example.com/v1"]
    ∧ getApiGroupVersion c4Preferred "Widget" (some "v1")
        = some "foo.example.com/v1"
    ∧ (c4Server "/apis/foo.example.com/v1").statusCode = 200
    ∧ "/apis/foo.example.com/v1" ∉
        (buildResourceSelfLink c4Preferred c4Server (fun _ => none) "Widget"
          (some "v1") "x" "ns").fetched := by
  refine ⟨by decide, by decide, by decide, by decide, by decide⟩

/-- C5: the code contradicts the claim at the getAPIGroups caching site: a
200 response is cached with the five-minute failure TTL because the branch
reads the misspelled property stausCode, which is always undefined, while
the other discovery caching site does use the success TTL on 200 and the
failure TTL otherwise. -/
theorem c5_ttl_sites :
    getAPIGroupsCacheTTL ⟨200, ⟨none⟩⟩ = FAILURE_CACHE_TIME
    ∧ SUCCESS_CACHE_TIME ≠ FAILURE_CACHE_TIME
    ∧ (fetchResourceDoc [] (fun _ => ⟨200, ⟨some []⟩⟩) (fun _ => none)
        "Pod" "v1" "/api").writes = [⟨"/api/v1", SUCCESS_CACHE_TIME⟩]
    ∧ (fetchResourceDoc [] (fun _ => ⟨500, ⟨none⟩⟩) (fun _ => none)
        "Pod" "v1" "/api").writes = [⟨"/api/v1", FAILURE_CACHE_TIME⟩] := by
  refine ⟨by decide, by decide, by decide, by decide⟩

/-- C6: a RESTORE-CURRENT session whose stored endpointHash differs from the
hash of the live session selects its initial resourceVersion exactly as a
fresh CURRENT session (limit-1 list, null on failure); the persisted
checkpoint is read only when the stored hash equals the live hash. -/
theorem c6_restore_current_mismatch (s : StartState) (ctx : NodeContext)
    (endpointHash : String) (lr : ListResponse)
    (hstale : ctx.endpointHash? ≠ some endpointHash) :
    selectResourceVersion s "RESTORE-CURRENT" ctx endpointHash lr
      = selectResourceVersion s "CURRENT" ctx endpointHash lr
    ∧ initialRV "RESTORE-CURRENT" ctx endpointHash lr = currentRV lr
    ∧ (∀ ctx2 : NodeContext, ctx2.endpointHash? = some endpointHash →
        initialRV "RESTORE-CURRENT" ctx2 endpointHash lr = restoredRV ctx2) := by
  have hb : (ctx.endpointHash? == some endpointHash) = false :=
    beq_eq_false_iff_ne.mpr hstale
  have h2 : initialRV "RESTORE-CURRENT" ctx endpointHash lr = currentRV lr := by
    show (if ctx.endpointHash? == some endpointHash then restoredRV ctx
          else currentRV lr) = currentRV lr
    rw [hb]
    simp
  refine ⟨selectResourceVersion_strategy_congr s _ _ ctx endpointHash lr
    (by rw [h2]; rfl), h2, ?_⟩
  intro ctx2 hctx2
  have hb2 : (ctx2.endpointHash? == some endpointHash) = true := by
    simp [hctx2]
  show (if ctx2.endpointHash? == some endpointHash then restoredRV ctx2
        else currentRV lr) = restoredRV ctx2
  rw [hb2]
  simp

/-- C6 witness: a stale stored hash with a stored checkpoint 42 selects the
same value as a fresh CURRENT session. -/
theorem c6_restore_current_mismatch_witness :
    selectResourceVersion ⟨RV.unset, none, RV.unset⟩ "RESTORE-CURRENT"
        ⟨some "stale", some 42⟩ "live" ⟨200, 7⟩
      = selectResourceVersion ⟨RV.unset, none, RV.unset⟩ "CURRENT"
        ⟨some "stale", some 42⟩ "live" ⟨200, 7⟩ :=
  (c6_restore_current_mismatch ⟨RV.unset, none, RV.unset⟩
    ⟨some "stale", some 42⟩ "live" ⟨200, 7⟩ (by decide)).1

/-- C7 (amended): startWatch always aborts, destroys and deletes any
existing stream first; when a connect is already in progress it then
returns without entering Connecting or touching the rest of the session
state, and only when not connecting does it report Connecting, set the
connecting flag and proceed. -/
theorem c7_startWatch_entry (s : SessionShell) :
    (s.connecting = true →
      startWatchEntry s
        = ({ s with
              watch? := none
              destroyed := s.destroyed ++ Option.toList s.watch? }, false))
    ∧ (s.connecting = false →
      startWatchEntry s
        = ({ s with
              watch? := none
              destroyed := s.destroyed ++ Option.toList s.watch?
              connecting := true
              statusText := "connecting" }, true)) := by
  obtain ⟨w?, c, st, d⟩ := s
  constructor <;> rintro rfl <;> cases w? <;>
    simp [startWatchEntry, Option.toList]

/-- C7 witness: the teardown equation applied to the in-progress session
with live stream 7. -/
theorem c7_startWatch_entry_witness :
    startWatchEntry c7S
      = ({ c7S with
            watch? := none
            destroyed := c7S.destroyed ++ Option.toList c7S.watch? }, false) :=
  (c7_startWatch_entry c7S).1 rfl

/-- C7 counterexample: a start call made while connecting with a live
stream 7 is not a no-op: it deletes the stream field and destroys stream 7,
changing session state even though the call does not proceed. -/
theorem c7_counterexample :
    (startWatchEntry c7S).2 = false
    ∧ (startWatchEntry c7S).1 ≠ c7S
    ∧ (startWatchEntry c7S).1.watch? = none
    ∧ (startWatchEntry c7S).1.destroyed = [7] := by
  refine ⟨by decide, by decide, by decide, by decide⟩

end K8s

namespace K8s

/-- C8: getApiGroupVersion yields a groupVersion only when exactly one
preferred-version resource list matches the kind case-insensitively,
constrained to the supplied bare version; zero or several matching lists
yield unresolved, never a guess, and buildResourceSelfLink then throws the
missing-apiVersion error when no apiVersion could be resolved at all. -/
theorem c8_unique_or_unresolved :
    (∀ (preferred : List APIResourceList) (kind : String)
        (version? : Option String) (gv : String),
      getApiGroupVersion preferred kind version? = some gv →
        ∃ rl, preferred.filter (matchesKindVersion kind version?) = [rl]
          ∧ gv = rl.groupVersion
          ∧ rl.resources.any
              (fun r => jsToLower r.kind == jsToLower kind) = true
          ∧ ∀ v, version? = some v → lastSegment rl.groupVersion = v)
    ∧ (∀ (preferred : List APIResourceList) (kind : String)
          (version? : Option String),
        (preferred.filter (matchesKindVersion kind version?)).length ≠ 1 →
          getApiGroupVersion preferred kind version? = none)
    ∧ (∀ (preferred : List APIResourceList) (server : String → HttpResponse)
          (cache : String → Option ResourceDoc) (kind name nspace : String),
        getApiGroupVersion preferred kind none = none →
          buildResourceSelfLink preferred server cache kind none name nspace
            = ⟨SelfLinkResult.err SelfLinkError.missingApiVersion, [], []⟩) := by
  refine ⟨?_, ?_, ?_⟩
  · intro preferred kind version? gv h
    unfold getApiGroupVersion at h
    cases hf : preferred.filter (matchesKindVersion kind version?) with
    | nil =>
      rw [hf] at h
      exact absurd h (by simp)
    | cons rl tl =>
      cases tl with
      | cons b t =>
        rw [hf] at h
        exact absurd h (by simp)
      | nil =>
        rw [hf] at h
        have hgv : gv = rl.groupVersion := by
          have h' : some rl.groupVersion = some gv := h
          exact (Option.some.injEq _ _ ▸ h').symm
        have hmem : rl ∈ preferred.filter (matchesKindVersion kind version?) := by
          rw [hf]
          exact List.mem_singleton.mpr rfl
        have hp : matchesKindVersion kind version? rl = true :=
          (List.mem_filter.mp hmem).2
        unfold matchesKindVersion at hp
        rw [Bool.and_eq_true] at hp
        refine ⟨rl, rfl, hgv, hp.2, ?_⟩
        intro v hv
        have hver := hp.1
        rw [hv] at hver
        exact eq_of_beq hver
  · intro preferred kind version? hlen
    unfold getApiGroupVersion
    cases hf : preferred.filter (matchesKindVersion kind version?) with
    | nil => rfl
    | cons rl tl =>
      cases tl with
      | nil =>
        exact absurd (by rw [hf]; rfl) hlen
      | cons b t => rfl
  · intro preferred server cache kind name nspace h
    have hres : resolveApiVersion preferred kind none = none := h
    unfold buildResourceSelfLink
    rw [hres]

/-- C8 witness: the single list networking.k8s.io/v1 matches the
lower-cased kind ingress constrained to bare version v1, so the resolution
is that unique groupVersion. -/
theorem c8_unique_or_unresolved_witness :
    ∃ rl, c8Preferred.filter (matchesKindVersion "ingress" (some "v1")) = [rl]
      ∧ "networking.k8s.io/v1" = rl.groupVersion
      ∧ rl.resources.any
          (fun r => jsToLower r.kind == jsToLower "ingress") = true
      ∧ ∀ v, (some "v1" : Option String) = some v
          → lastSegment rl.groupVersion = v :=
  c8_unique_or_unresolved.1 c8Preferred "ingress" (some "v1")
    "networking.k8s.io/v1" (by decide)

/-! Lemmas for the buildWatchlessURI string pipeline. -/

theorem beq_false_of_not_mem_cons {sep c : Char} {cs : List Char}
    (h : sep ∉ c :: cs) : (c == sep) = false := by
  have : c ≠ sep := fun he => h (he ▸ List.mem_cons_self c cs)
  simpa using this

theorem not_mem_of_not_mem_cons {sep c : Char} {cs : List Char}
    (h : sep ∉ c :: cs) : sep ∉ cs :=
  fun hm => h (List.mem_cons_of_mem c hm)

theorem takeUntilChar_of_not_mem {sep : Char} :
    ∀ {l : List Char}, sep ∉ l → takeUntilChar sep l = l := by
  intro l
  induction l with
  | nil => intro _; rfl
  | cons c cs ih =>
    intro h
    simp [takeUntilChar, beq_false_of_not_mem_cons h,
      ih (not_mem_of_not_mem_cons h)]

theorem dropPastChar_of_not_mem {sep : Char} :
    ∀ {l : List Char}, sep ∉ l → dropPastChar sep l = none := by
  intro l
  induction l with
  | nil => intro _; rfl
  | cons c cs ih =>
    intro h
    simp [dropPastChar, beq_false_of_not_mem_cons h,
      ih (not_mem_of_not_mem_cons h)]

theorem takeUntilChar_append {sep : Char} :
    ∀ {l₁ : List Char} (l₂ : List Char), sep ∉ l₁ →
      takeUntilChar sep (l₁ ++ sep :: l₂) = l₁ := by
  intro l₁
  induction l₁ with
  | nil => intro l₂ _; simp [takeUntilChar]
  | cons c cs ih =>
    intro l₂ h
    rw [List.cons_append]
    simp [takeUntilChar, beq_false_of_not_mem_cons h,
      ih l₂ (not_mem_of_not_mem_cons h)]

theorem dropPastChar_append {sep : Char} :
    ∀ {l₁ : List Char} (l₂ : List Char), sep ∉ l₁ →
      dropPastChar sep (l₁ ++ sep :: l₂) = some l₂ := by
  intro l₁
  induction l₁ with
  | nil => intro l₂ _; simp [dropPastChar]
  | cons c cs ih =>
    intro l₂ h
    rw [List.cons_append]
    simp [dropPastChar, beq_false_of_not_mem_cons h,
      ih l₂ (not_mem_of_not_mem_cons h)]

theorem not_mem_takeUntilChar (sep : Char) :
    ∀ l : List Char, sep ∉ takeUntilChar sep l := by
  intro l
  induction l with
  | nil => simp [takeUntilChar]
  | cons c cs ih =>
    cases hc : (c == sep) with
    | true => simp [takeUntilChar, hc]
    | false =>
      have hne : c ≠ sep := by simpa using hc
      simp only [takeUntilChar, hc, Bool.false_eq_true, if_false,
        List.mem_cons, not_or]
      exact ⟨fun he => hne he.symm, ih⟩

theorem mem_takeUntilChar_subset {sep c : Char} :
    ∀ {l : List Char}, c ∈ takeUntilChar sep l → c ∈ l := by
  intro l
  induction l with
  | nil => intro h; simp [takeUntilChar] at h
  | cons d ds ih =>
    intro h
    cases hd : (d == sep) with
    | true => simp [takeUntilChar, hd] at h
    | false =>
      simp only [takeUntilChar, hd, Bool.false_eq_true, if_false,
        List.mem_cons] at h
      rcases h with h | h
      · exact h ▸ List.mem_cons_self d ds
      · exact List.mem_cons_of_mem d (ih h)

theorem mem_dropPastChar_subset {sep c : Char} :
    ∀ {l t : List Char}, dropPastChar sep l = some t → c ∈ t → c ∈ l := by
  intro l
  induction l with
  | nil => intro t h; simp [dropPastChar] at h
  | cons d ds ih =>
    intro t h hc
    cases hd : (d == sep) with
    | true =>
      simp only [dropPastChar, hd, if_true, Option.some.injEq] at h
      exact List.mem_cons_of_mem d (h ▸ hc)
    | false =>
      simp only [dropPastChar, hd, Bool.false_eq_true, if_false] at h
      exact List.mem_cons_of_mem d (ih h hc)

theorem splitCharsAux_ne_nil (sep : Char) :
    ∀ (l acc : List Char), splitCharsAux sep l acc ≠ [] := by
  intro l
  induction l with
  | nil => intro acc; simp [splitCharsAux]
  | cons c cs ih =>
    intro acc
    cases hc : (c == sep) with
    | true => simp [splitCharsAux, hc]
    | false =>
      simp only [splitCharsAux, hc, Bool.false_eq_true, if_false]
      exact ih (c :: acc)

theorem not_mem_of_mem_splitCharsAux {sep : Char} :
    ∀ {l acc t : List Char}, sep ∉ acc → t ∈ splitCharsAux sep l acc →
      sep ∉ t := by
  intro l
  induction l with
  | nil =>
    intro acc t hacc ht
    simp only [splitCharsAux, List.mem_singleton] at ht
    subst ht
    simpa using hacc
  | cons c cs ih =>
    intro acc t hacc ht
    cases hc : (c == sep) with
    | true =>
      simp only [splitCharsAux, hc, if_true, List.mem_cons] at ht
      rcases ht with ht | ht
      · subst ht; simpa using hacc
      · exact ih (by simp) ht
    | false =>
      have hne : c ≠ sep := by simpa using hc
      simp only [splitCharsAux, hc, Bool.false_eq_true, if_false] at ht
      refine ih ?_ ht
      simp only [List.mem_cons, not_or]
      exact ⟨fun he => hne he.symm, hacc⟩

theorem mem_of_mem_splitCharsAux {sep c : Char} :
    ∀ {l acc t : List Char}, t ∈ splitCharsAux sep l acc → c ∈ t →
      c ∈ acc ∨ c ∈ l := by
  intro l
  induction l with
  | nil =>
    intro acc t ht hc
    simp only [splitCharsAux, List.mem_singleton] at ht
    subst ht
    exact Or.inl (List.mem_reverse.mp hc)
  | cons d ds ih =>
    intro acc t ht hc
    cases hd : (d == sep) with
    | true =>
      simp only [splitCharsAux, hd, if_true, List.mem_cons] at ht
      rcases ht with ht | ht
      · subst ht
        exact Or.inl (List.mem_reverse.mp hc)
      · rcases ih ht hc with h | h
        · exact absurd h (List.not_mem_nil c)
        · exact Or.inr (List.mem_cons_of_mem d h)
    | false =>
      simp only [splitCharsAux, hd, Bool.false_eq_true, if_false] at ht
      rcases ih ht hc with h | h
      · rcases List.mem_cons.mp h with h | h
        · exact Or.inr (h ▸ List.mem_cons_self d ds)
        · exact Or.inl h
      · exact Or.inr (List.mem_cons_of_mem d h)

theorem joinChars_splitCharsAux (sep : Char) :
    ∀ (l acc : List Char),
      joinChars sep (splitCharsAux sep l acc) = acc.reverse ++ l := by
  intro l
  induction l with
  | nil => intro acc; simp [splitCharsAux, joinChars]
  | cons c cs ih =>
    intro acc
    cases hc : (c == sep) with
    | true =>
      have hsep : c = sep := by simpa using hc
      simp only [splitCharsAux, hc, if_true]
      rcases hs : splitCharsAux sep cs [] with _ | ⟨x, xs⟩
      · exact absurd hs (splitCharsAux_ne_nil sep cs [])
      · calc joinChars sep (acc.reverse :: x :: xs)
            = acc.reverse ++ sep :: joinChars sep (x :: xs) := rfl
          _ = acc.reverse ++ sep :: (List.reverse [] ++ cs) := by
              rw [← hs, ih []]
          _ = acc.reverse ++ c :: cs := by simp [hsep]
    | false =>
      simp only [splitCharsAux, hc, Bool.false_eq_true, if_false]
      rw [ih (c :: acc)]
      simp

theorem splitCharsAux_append_sep {sep : Char} :
    ∀ {l₁ : List Char} (l₂ acc : List Char), sep ∉ l₁ →
      splitCharsAux sep (l₁ ++ sep :: l₂) acc
        = (acc.reverse ++ l₁) :: splitCharsAux sep l₂ [] := by
  intro l₁
  induction l₁ with
  | nil =>
    intro l₂ acc _
    simp [splitCharsAux]
  | cons c cs ih =>
    intro l₂ acc h
    rw [List.cons_append]
    have hc : (c == sep) = false := beq_false_of_not_mem_cons h
    simp only [splitCharsAux, hc, Bool.false_eq_true, if_false]
    rw [ih l₂ (c :: acc) (not_mem_of_not_mem_cons h)]
    simp

theorem splitCharsAux_of_not_mem {sep : Char} :
    ∀ {l : List Char} (acc : List Char), sep ∉ l →
      splitCharsAux sep l acc = [acc.reverse ++ l] := by
  intro l
  induction l with
  | nil => intro acc _; simp [splitCharsAux]
  | cons c cs ih =>
    intro acc h
    have hc : (c == sep) = false := beq_false_of_not_mem_cons h
    simp only [splitCharsAux, hc, Bool.false_eq_true, if_false]
    rw [ih (c :: acc) (not_mem_of_not_mem_cons h)]
    simp

theorem splitChars_joinChars {sep : Char} :
    ∀ {parts : List (List Char)}, (∀ t ∈ parts, sep ∉ t) → parts ≠ [] →
      splitCharsAux sep (joinChars sep parts) [] = parts := by
  intro parts
  induction parts with
  | nil => intro _ hne; exact absurd rfl hne
  | cons x xs ih =>
    intro h _
    cases xs with
    | nil =>
      simp only [joinChars]
      rw [splitCharsAux_of_not_mem [] (h x (List.mem_cons_self x []))]
      simp
    | cons y ys =>
      have hj : joinChars sep (x :: y :: ys)
          = x ++ sep :: joinChars sep (y :: ys) := rfl
      rw [hj, splitCharsAux_append_sep (joinChars sep (y :: ys)) []
        (h x (List.mem_cons_self x (y :: ys)))]
      rw [ih (fun t ht => h t (List.mem_cons_of_mem x ht)) (by simp)]
      simp

theorem charListLt_asymm (a : List Char) :
    ∀ b, charListLt a b = true → charListLt b a = false := by
  induction a with
  | nil =>
    intro b h
    cases b with
    | nil => simp [charListLt] at h
    | cons y ys => simp [charListLt]
  | cons x xs ih =>
    intro b h
    cases b with
    | nil => simp [charListLt] at h
    | cons y ys =>
      by_cases h1 : x.toNat < y.toNat
      · have h2 : ¬ y.toNat < x.toNat := by omega
        simp [charListLt, h1, h2]
      · by_cases h2 : y.toNat < x.toNat
        · simp [charListLt, h1, h2] at h
        · simp only [charListLt, h1, h2, if_false, if_neg] at h ⊢
          exact ih ys (by simpa [h1, h2] using h)

theorem charListLt_le_trans (a : List Char) :
    ∀ b c, charListLt b a = false → charListLt c b = false →
      charListLt c a = false := by
  induction a with
  | nil =>
    intro b c h1 h2
    cases c <;> simp [charListLt]
  | cons x xs ih =>
    intro b c h1 h2
    cases b with
    | nil => simp [charListLt] at h1
    | cons y ys =>
      cases c with
      | nil => simp [charListLt] at h2
      | cons z zs =>
        by_cases hyx : y.toNat < x.toNat
        · simp [charListLt, hyx] at h1
        · by_cases hzy : z.toNat < y.toNat
          · simp [charListLt, hzy] at h2
          · by_cases hzx : z.toNat < x.toNat
            · omega
            · by_cases hxz : x.toNat < z.toNat
              · simp [charListLt, hzx, hxz]
              · have h1t : charListLt ys xs = false := by
                  have hxy : ¬ x.toNat < y.toNat := by omega
                  simpa [charListLt, hyx, hxy] using h1
                have h2t : charListLt zs ys = false := by
                  have hyz : ¬ y.toNat < z.toNat := by omega
                  simpa [charListLt, hzy, hyz] using h2
                simpa [charListLt, hzx, hxz] using ih ys zs h1t h2t

theorem jsStrLt_asymm {a b : String} (h : jsStrLt a b = true) :
    jsStrLt b a = false :=
  charListLt_asymm a.data b.data h

instance : IsTotal (String × Option String)
    (fun p q => jsStrLt q.1 p.1 = false) := by
  refine ⟨fun p q => ?_⟩
  by_cases h : jsStrLt q.1 p.1 = false
  · exact Or.inl h
  · refine Or.inr ?_
    have ht : jsStrLt q.1 p.1 = true := by
      simpa using h
    exact jsStrLt_asymm ht

instance : IsTrans (String × Option String)
    (fun p q => jsStrLt q.1 p.1 = false) := by
  refine ⟨fun a b c h1 h2 => ?_⟩
  exact charListLt_le_trans a.1.data b.1.data c.1.data h1 h2

theorem sortPairsByKey_sorted (ps : List (String × Option String)) :
    (sortPairsByKey ps).Sorted (fun p q => jsStrLt q.1 p.1 = false) :=
  List.sorted_insertionSort _ ps

theorem sortPairsByKey_idem (ps : List (String × Option String)) :
    sortPairsByKey (sortPairsByKey ps) = sortPairsByKey ps :=
  List.Sorted.insertionSort_eq (sortPairsByKey_sorted ps)

theorem jsSplit_ne_nil (sep : Char) (s : String) : jsSplit sep s ≠ [] := by
  intro h
  exact splitCharsAux_ne_nil sep s.data [] (List.map_eq_nil_iff.mp h)

theorem not_mem_of_mem_jsSplit {sep : Char} {s t : String}
    (h : t ∈ jsSplit sep s) : sep ∉ t.data := by
  obtain ⟨cs, hcs, rfl⟩ := List.mem_map.mp h
  exact not_mem_of_mem_splitCharsAux (by simp) hcs

theorem mem_of_mem_jsSplit {sep c : Char} {s t : String}
    (h : t ∈ jsSplit sep s) (hc : c ∈ t.data) : c ∈ s.data := by
  obtain ⟨cs, hcs, rfl⟩ := List.mem_map.mp h
  rcases mem_of_mem_splitCharsAux hcs hc with h | h
  · exact absurd h (List.not_mem_nil c)
  · exact h

theorem jsJoin_jsSplit (sep : Char) (s : String) :
    jsJoin sep (jsSplit sep s) = s := by
  unfold jsJoin jsSplit
  rw [List.map_map]
  have hmm : (String.data ∘ fun cs => (⟨cs⟩ : String)) = fun cs => cs := rfl
  rw [hmm, List.map_id', joinChars_splitCharsAux]
  rfl

theorem jsSplit_jsJoin {sep : Char} {parts : List String}
    (h : ∀ t ∈ parts, sep ∉ t.data) (hne : parts ≠ []) :
    jsSplit sep (jsJoin sep parts) = parts := by
  unfold jsJoin jsSplit
  have hd : (String.mk (joinChars sep (parts.map String.data))).data
      = joinChars sep (parts.map String.data) := rfl
  rw [hd, splitChars_joinChars ?h1 ?h2]
  · have hmm : (fun cs => (⟨cs⟩ : String)) ∘ String.data = fun t => t := rfl
    rw [List.map_map, hmm, List.map_id']
  · intro t ht
    obtain ⟨u, hu, rfl⟩ := List.mem_map.mp ht
    exact h u hu
  · simpa using hne

theorem mem_of_mem_joinChars {sep c : Char} :
    ∀ {parts : List (List Char)}, c ∈ joinChars sep parts →
      c = sep ∨ ∃ t ∈ parts, c ∈ t := by
  intro parts
  induction parts with
  | nil => intro h; simp [joinChars] at h
  | cons x xs ih =>
    intro h
    cases xs with
    | nil =>
      refine Or.inr ⟨x, List.mem_cons_self x [], ?_⟩
      simpa [joinChars] using h
    | cons y ys =>
      have hj : joinChars sep (x :: y :: ys)
          = x ++ sep :: joinChars sep (y :: ys) := rfl
      rw [hj] at h
      rcases List.mem_append.mp h with h | h
      · exact Or.inr ⟨x, List.mem_cons_self x (y :: ys), h⟩
      · rcases List.mem_cons.mp h with h | h
        · exact Or.inl h
        · rcases ih h with h | ⟨t, ht, hct⟩
          · exact Or.inl h
          · exact Or.inr ⟨t, List.mem_cons_of_mem x ht, hct⟩

theorem mem_of_mem_jsJoin {sep c : Char} {parts : List String}
    (h : c ∈ (jsJoin sep parts).data) :
    c = sep ∨ ∃ t ∈ parts, c ∈ t.data := by
  rcases mem_of_mem_joinChars h with h | ⟨t, ht, hct⟩
  · exact Or.inl h
  · obtain ⟨u, hu, rfl⟩ := List.mem_map.mp ht
    exact Or.inr ⟨u, hu, hct⟩

theorem breakAtChar_of_not_mem {sep : Char} {s : String}
    (h : sep ∉ s.data) : breakAtChar sep s = (s, none) := by
  unfold breakAtChar
  rw [takeUntilChar_of_not_mem h, dropPastChar_of_not_mem h]
  rfl

theorem breakAtChar_append {sep : Char} {s₁ m s₂ : String}
    (hm : m.data = [sep]) (h : sep ∉ s₁.data) :
    breakAtChar sep (s₁ ++ m ++ s₂) = (s₁, some s₂) := by
  unfold breakAtChar
  have hd : (s₁ ++ m ++ s₂).data = s₁.data ++ sep :: s₂.data := by
    simp [String.data_append, hm]
  rw [hd, takeUntilChar_append s₂.data h, dropPastChar_append s₂.data h]
  rfl

theorem not_mem_of_dropPastChar_eq_none {sep : Char} :
    ∀ {l : List Char}, dropPastChar sep l = none → sep ∉ l := by
  intro l
  induction l with
  | nil => intro _; simp
  | cons c cs ih =>
    intro h
    cases hc : (c == sep) with
    | true => simp [dropPastChar, hc] at h
    | false =>
      simp only [dropPastChar, hc, Bool.false_eq_true, if_false] at h
      have hne : c ≠ sep := by simpa using hc
      simp only [List.mem_cons, not_or]
      exact ⟨fun he => hne he.symm, ih h⟩

theorem wfPair_of_mem_parseQueryParams {q : String}
    {pr : String × Option String} (h : pr ∈ parseQueryParams q) :
    wfPair pr := by
  obtain ⟨p, hp, rfl⟩ := List.mem_map.mp h
  have hpsplit : p ∈ jsSplit '&' q := (List.mem_filter.mp hp).1
  have hpne : p ≠ "" := by
    have := (List.mem_filter.mp hp).2
    simpa using this
  have hamp : '&' ∉ p.data := not_mem_of_mem_jsSplit hpsplit
  refine ⟨?_, ?_, ?_⟩
  · intro hc
    exact hamp (mem_takeUntilChar_subset hc)
  · exact not_mem_takeUntilChar '=' p.data
  · unfold breakAtChar
    cases hd : dropPastChar '=' p.data with
    | none =>
      simp only [hd, Option.map_none']
      intro he
      apply hpne
      have : takeUntilChar '=' p.data = p.data :=
        takeUntilChar_of_not_mem (not_mem_of_dropPastChar_eq_none hd)
      have hp' : (⟨takeUntilChar '=' p.data⟩ : String) = p := by
        rw [this]
      rw [← hp', he]
    | some t =>
      simp only [hd, Option.map_some']
      intro hc
      exact hamp (mem_dropPastChar_subset hd hc)

theorem renderQueryParam_ne_empty {pr : String × Option String}
    (h : wfPair pr) : renderQueryParam pr ≠ "" := by
  obtain ⟨k, v⟩ := pr
  cases v with
  | none => exact h.2.2
  | some v =>
    intro he
    have : (k ++ "=" ++ v).data = [] := congrArg String.data he
    simp [String.data_append] at this

theorem renderQueryParam_amp_free {pr : String × Option String}
    (h : wfPair pr) : '&' ∉ (renderQueryParam pr).data := by
  obtain ⟨k, v⟩ := pr
  cases v with
  | none => exact h.1
  | some v =>
    intro hc
    simp only [renderQueryParam, String.data_append] at hc
    rcases List.mem_append.mp hc with hc | hc
    · rcases List.mem_append.mp hc with hc | hc
      · exact h.1 hc
      · simp at hc
    · exact h.2.2 hc

theorem mem_of_mem_renderQueryParam {c : Char} {pr : String × Option String}
    (h : c ∈ (renderQueryParam pr).data) :
    c = '=' ∨ c ∈ pr.1.data ∨ ∃ v, pr.2 = some v ∧ c ∈ v.data := by
  obtain ⟨k, v⟩ := pr
  cases v with
  | none => exact Or.inr (Or.inl h)
  | some v =>
    simp only [renderQueryParam, String.data_append] at h
    rcases List.mem_append.mp h with h | h
    · rcases List.mem_append.mp h with h | h
      · exact Or.inr (Or.inl h)
      · simp only [List.mem_singleton] at h
        exact Or.inl h
    · exact Or.inr (Or.inr ⟨v, rfl, h⟩)

theorem breakAtChar_renderQueryParam {pr : String × Option String}
    (h : wfPair pr) : breakAtChar '=' (renderQueryParam pr) = pr := by
  obtain ⟨k, v⟩ := pr
  cases v with
  | none =>
    exact breakAtChar_of_not_mem h.2.1
  | some v =>
    exact breakAtChar_append rfl h.2.1

theorem parseQueryParams_stringifyQueryParams
    {ps : List (String × Option String)} (hwf : ∀ pr ∈ ps, wfPair pr) :
    parseQueryParams (stringifyQueryParams ps) = sortPairsByKey ps := by
  have hwfs : ∀ pr ∈ sortPairsByKey ps, wfPair pr := by
    intro pr hpr
    exact hwf pr (List.mem_insertionSort _ |>.mp hpr)
  have hfr : ((sortPairsByKey ps).map renderQueryParam).filter
      (fun r => r != "") = (sortPairsByKey ps).map renderQueryParam := by
    refine List.filter_eq_self.mpr ?_
    intro r hr
    obtain ⟨pr, hpr, rfl⟩ := List.mem_map.mp hr
    simpa using renderQueryParam_ne_empty (hwfs pr hpr)
  unfold stringifyQueryParams
  rw [hfr]
  cases hs : sortPairsByKey ps with
  | nil => decide
  | cons p0 ps0 =>
    rw [← hs]
    have hjs : jsSplit '&' (jsJoin '&' ((sortPairsByKey ps).map
        renderQueryParam)) = (sortPairsByKey ps).map renderQueryParam := by
      refine jsSplit_jsJoin ?_ ?_
      · intro t ht
        obtain ⟨pr, hpr, rfl⟩ := List.mem_map.mp ht
        exact renderQueryParam_amp_free (hwfs pr hpr)
      · rw [hs]; simp
    unfold parseQueryParams
    rw [hjs]
    have hfr2 : ((sortPairsByKey ps).map renderQueryParam).filter
        (fun r => r != "") = (sortPairsByKey ps).map renderQueryParam := hfr
    rw [hfr2, List.map_map]
    have hcong : ∀ pr ∈ sortPairsByKey ps,
        ((fun p => breakAtChar '=' p) ∘ renderQueryParam) pr = id pr := by
      intro pr hpr
      exact breakAtChar_renderQueryParam (hwfs pr hpr)
    rw [List.map_congr_left hcong, List.map_id]

theorem mem_of_mem_watchlessPath {c : Char} {p : String}
    (h : c ∈ (watchlessPath p).data) : c = '/' ∨ c ∈ p.data := by
  rcases mem_of_mem_jsJoin h with h | ⟨t, ht, hct⟩
  · exact Or.inl h
  · exact Or.inr (mem_of_mem_jsSplit (List.mem_filter.mp ht).1 hct)

theorem not_hash_mem_preHash (uri : String) : '#' ∉ (preHash uri).data :=
  not_mem_takeUntilChar '#' uri.data

theorem mem_preHash_of_mem_pathPart {c : Char} {uri : String}
    (h : c ∈ (pathPart uri).data) : c ∈ (preHash uri).data :=
  mem_takeUntilChar_subset h

theorem not_qmark_mem_pathPart (uri : String) : '?' ∉ (pathPart uri).data :=
  not_mem_takeUntilChar '?' (preHash uri).data

theorem wfPair_of_mem_queryPairs {uri : String} {pr : String × Option String}
    (h : pr ∈ queryPairs uri) : wfPair pr := by
  have h1 : pr ∈ parsedQuery (rawQuery uri) := (List.mem_filter.mp h).1
  cases hq : rawQuery uri with
  | none => rw [hq] at h1; simp [parsedQuery] at h1
  | some q =>
    rw [hq] at h1
    exact wfPair_of_mem_parseQueryParams h1

theorem mem_preHash_of_mem_queryPairs {uri : String}
    {pr : String × Option String} (hpr : pr ∈ queryPairs uri) {c : Char}
    (hc : c ∈ pr.1.data ∨ ∃ v, pr.2 = some v ∧ c ∈ v.data) :
    c ∈ (preHash uri).data := by
  have h1 : pr ∈ parsedQuery (rawQuery uri) := (List.mem_filter.mp hpr).1
  cases hq : rawQuery uri with
  | none => rw [hq] at h1; simp [parsedQuery] at h1
  | some q =>
    rw [hq] at h1
    obtain ⟨p, hp, hpr_eq⟩ := List.mem_map.mp h1
    have hpq : p ∈ jsSplit '&' q := (List.mem_filter.mp hp).1
    have hq_sub : ∀ d : Char, d ∈ q.data → d ∈ (preHash uri).data := by
      intro d hd
      have hq' : (dropPastChar '?' (preHash uri).data).map
          (fun cs => (⟨cs⟩ : String)) = some q := hq
      obtain ⟨cs, hcs, hq2⟩ := Option.map_eq_some'.mp hq'
      have hdq : d ∈ cs := by
        have : q.data = cs := by rw [← hq2]
        rw [this] at hd
        exact hd
      exact mem_dropPastChar_subset hcs hdq
    have hp_sub : ∀ d : Char, d ∈ p.data → d ∈ q.data :=
      fun d hd => mem_of_mem_jsSplit hpq hd
    rcases hc with hc | ⟨v, hv, hc⟩
    · subst hpr_eq
      exact hq_sub c (hp_sub c (mem_takeUntilChar_subset hc))
    · subst hpr_eq
      have hdrop : dropPastChar '=' p.data = some v.data := by
        have hv' : (dropPastChar '=' p.data).map
            (fun cs => (⟨cs⟩ : String)) = some v := hv
        obtain ⟨cs, hcs, hv2⟩ := Option.map_eq_some'.mp hv'
        rw [hcs]
        rw [← hv2]
      exact hq_sub c (hp_sub c (mem_dropPastChar_subset hdrop hc))

theorem mem_of_mem_stringifyQueryParams {c : Char}
    {ps : List (String × Option String)}
    (h : c ∈ (stringifyQueryParams ps).data) :
    c = '&' ∨ c = '=' ∨ ∃ pr ∈ ps,
      c ∈ pr.1.data ∨ ∃ v, pr.2 = some v ∧ c ∈ v.data := by
  rcases mem_of_mem_jsJoin h with h | ⟨t, ht, hct⟩
  · exact Or.inl h
  · have ht1 : t ∈ (sortPairsByKey ps).map renderQueryParam :=
      (List.mem_filter.mp ht).1
    obtain ⟨pr, hpr, rfl⟩ := List.mem_map.mp ht1
    have hps : pr ∈ ps := (List.mem_insertionSort _).mp hpr
    rcases mem_of_mem_renderQueryParam hct with h | h | h
    · exact Or.inr (Or.inl h)
    · exact Or.inr (Or.inr ⟨pr, hps, Or.inl h⟩)
    · exact Or.inr (Or.inr ⟨pr, hps, Or.inr h⟩)

theorem not_hash_mem_buildWatchlessURI (uri : String) :
    '#' ∉ (buildWatchlessURI uri).data := by
  intro hc
  have hd : (buildWatchlessURI uri).data
      = (watchlessPath (pathPart uri)).data
        ++ '?' :: (stringifyQueryParams (queryPairs uri)).data := by
    simp [buildWatchlessURI, String.data_append]
  rw [hd] at hc
  rcases List.mem_append.mp hc with hc | hc
  · rcases mem_of_mem_watchlessPath hc with hc | hc
    · exact absurd hc (by decide)
    · exact not_hash_mem_preHash uri (mem_preHash_of_mem_pathPart hc)
  · rcases List.mem_cons.mp hc with hc | hc
    · exact absurd hc (by decide)
    · rcases mem_of_mem_stringifyQueryParams hc with hc | hc | ⟨pr, hpr, hin⟩
      · exact absurd hc (by decide)
      · exact absurd hc (by decide)
      · exact not_hash_mem_preHash uri (mem_preHash_of_mem_queryPairs hpr hin)

theorem not_qmark_mem_watchlessPath_pathPart (uri : String) :
    '?' ∉ (watchlessPath (pathPart uri)).data := by
  intro hc
  rcases mem_of_mem_watchlessPath hc with hc | hc
  · exact absurd hc (by decide)
  · exact not_qmark_mem_pathPart uri hc

theorem preHash_buildWatchlessURI (uri : String) :
    preHash (buildWatchlessURI uri) = buildWatchlessURI uri := by
  unfold preHash
  rw [breakAtChar_of_not_mem (not_hash_mem_buildWatchlessURI uri)]

theorem breakAtChar_buildWatchlessURI (uri : String) :
    breakAtChar '?' (buildWatchlessURI uri)
      = (watchlessPath (pathPart uri),
         some (stringifyQueryParams (queryPairs uri))) :=
  breakAtChar_append rfl (not_qmark_mem_watchlessPath_pathPart uri)

theorem pathPart_buildWatchlessURI (uri : String) :
    pathPart (buildWatchlessURI uri) = watchlessPath (pathPart uri) := by
  unfold pathPart
  rw [preHash_buildWatchlessURI, breakAtChar_buildWatchlessURI]
  rfl

theorem rawQuery_buildWatchlessURI (uri : String) :
    rawQuery (buildWatchlessURI uri)
      = some (stringifyQueryParams (queryPairs uri)) := by
  unfold rawQuery
  rw [preHash_buildWatchlessURI, breakAtChar_buildWatchlessURI]

theorem watchlessPath_idem (p : String) :
    watchlessPath (watchlessPath p) = watchlessPath p := by
  cases hparts : (jsSplit '/' p).filter (fun item => jsToLower item != "watch")
      with
  | nil =>
    have h0 : watchlessPath p = "" := by
      unfold watchlessPath
      rw [hparts]
      rfl
    rw [h0]
    decide
  | cons t ts =>
    have hfree : ∀ u ∈ (jsSplit '/' p).filter
        (fun item => jsToLower item != "watch"), '/' ∉ u.data := by
      intro u hu
      exact not_mem_of_mem_jsSplit (List.mem_filter.mp hu).1
    have hne : (jsSplit '/' p).filter (fun item => jsToLower item != "watch")
        ≠ [] := by
      rw [hparts]; simp
    unfold watchlessPath
    rw [jsSplit_jsJoin hfree hne,
      List.filter_eq_self.mpr (fun a ha => (List.mem_filter.mp ha).2)]

theorem queryPairs_buildWatchlessURI (uri : String) :
    queryPairs (buildWatchlessURI uri) = sortPairsByKey (queryPairs uri) := by
  have h0 : queryPairs (buildWatchlessURI uri)
      = (parsedQuery (rawQuery (buildWatchlessURI uri))).filter
          (fun kv => kv.1 != "watch") := rfl
  rw [h0, rawQuery_buildWatchlessURI]
  have h1 : parsedQuery (some (stringifyQueryParams (queryPairs uri)))
      = parseQueryParams (stringifyQueryParams (queryPairs uri)) := rfl
  rw [h1, parseQueryParams_stringifyQueryParams
    (fun pr hpr => wfPair_of_mem_queryPairs hpr)]
  refine List.filter_eq_self.mpr ?_
  intro pr hpr
  have hmem : pr ∈ queryPairs uri := (List.mem_insertionSort _).mp hpr
  exact (List.mem_filter.mp hmem).2

theorem stringify_sortPairsByKey (qs : List (String × Option String)) :
    stringifyQueryParams (sortPairsByKey qs) = stringifyQueryParams qs := by
  unfold stringifyQueryParams
  rw [sortPairsByKey_idem]

/-- C9 (amended): buildWatchlessURI is idempotent on every URI, but it is
not the identity on already-clean inputs: the re-serialization appends the
query separator even when no query remains (queryString.stringify of the
empty object is the defined empty string, so URI.serialize emits the
question mark) and re-sorts query keys.  On a clean input — no path part
lower-casing to watch and no watch query key — the function removes
nothing: the result is the parse/re-serialize round-trip of the input, with
the path returned verbatim. -/
theorem c9_watchless_idempotent :
    (∀ uri : String,
      buildWatchlessURI (buildWatchlessURI uri) = buildWatchlessURI uri)
    ∧ (∀ uri : String,
        (∀ part ∈ jsSplit '/' (pathPart uri), jsToLower part ≠ "watch") →
        (∀ kv ∈ parsedQuery (rawQuery uri), kv.1 ≠ "watch") →
        buildWatchlessURI uri
          = pathPart uri ++ "?"
            ++ stringifyQueryParams (parsedQuery (rawQuery uri))) := by
  constructor
  · intro uri
    have h0 : buildWatchlessURI (buildWatchlessURI uri)
        = watchlessPath (pathPart (buildWatchlessURI uri)) ++ "?"
          ++ stringifyQueryParams (queryPairs (buildWatchlessURI uri)) := rfl
    rw [h0, pathPart_buildWatchlessURI, watchlessPath_idem,
      queryPairs_buildWatchlessURI, stringify_sortPairsByKey]
    rfl
  · intro uri hp hq
    unfold buildWatchlessURI watchlessPath queryPairs
    rw [List.filter_eq_self.mpr
      (fun a ha => by simpa using hp a ha)]
    rw [jsJoin_jsSplit]
    rw [List.filter_eq_self.mpr
      (fun kv hkv => by simpa using hq kv hkv)]

/-- C9 counterexample: the clean endpoint /api/v1/pods (no watch path part,
no query at all) is returned as /api/v1/pods? — not unchanged — and the
clean /p?b=2&a=1 comes back with its keys re-sorted, refuting the claimed
identity on clean inputs; a dirty input shows the intended removal works. -/
theorem c9_counterexample :
    buildWatchlessURI "/api/v1/pods" = "/api/v1/pods?"
    ∧ ("/api/v1/pods?" : String) ≠ "/api/v1/pods"
    ∧ (∀ part ∈ jsSplit '/' (pathPart "/api/v1/pods"),
        jsToLower part ≠ "watch")
    ∧ parsedQuery (rawQuery "/api/v1/pods") = []
    ∧ buildWatchlessURI "/p?b=2&a=1" = "/p?a=1&b=2"
    ∧ ("/p?a=1&b=2" : String) ≠ "/p?b=2&a=1"
    ∧ buildWatchlessURI "/api/v1/watch/pods?watch=true&limit=1"
        = "/api/v1/pods?limit=1" := by
  refine ⟨by decide, by decide, by decide, by decide, by decide, by decide,
    by decide⟩

/-- C9 witness: the no-removal conjunct applied to a clean endpoint with
one query parameter, whose round-trip happens to reproduce it exactly. -/
theorem c9_watchless_idempotent_witness :
    buildWatchlessURI "/api/v1/pods?limit=1"
      = pathPart "/api/v1/pods?limit=1" ++ "?"
        ++ stringifyQueryParams
            (parsedQuery (rawQuery "/api/v1/pods?limit=1")) :=
  c9_watchless_idempotent.2 "/api/v1/pods?limit=1" (by decide) (by decide)

/-- C10: when the resource-list document found in the cache for the
requested apiVersion has no resources field (for example a failed discovery
body cached under that key), buildResourceSelfLink returns undefined without
raising either error, and the bare-return branch behaves this way for every
such document. -/
theorem c10_missing_resources_is_silent (preferred : List APIResourceList)
    (server : String → HttpResponse) (cache : String → Option ResourceDoc)
    (kind apiVersion name nspace : String) (doc : ResourceDoc)
    (hcache : cache (prefixFor apiVersion ++ "/" ++ apiVersion) = some doc)
    (hdoc : doc.resources? = none) :
    (buildResourceSelfLink preferred server cache kind (some apiVersion)
        name nspace).result = SelfLinkResult.ok none
    ∧ ∀ pfx av k n ns,
        selfLinkFromDoc pfx av doc k n ns = SelfLinkResult.ok none := by
  have hd : doc = ⟨none⟩ := by
    obtain ⟨ors⟩ := doc
    exact congrArg ResourceDoc.mk hdoc
  subst hd
  constructor
  · have hfd : fetchResourceDoc preferred server cache kind apiVersion
        (prefixFor apiVersion) = ⟨apiVersion, ⟨none⟩, [], []⟩ := by
      unfold fetchResourceDoc
      rw [hcache]
    rw [buildResourceSelfLink_someApiVersion, hfd]
    rfl
  · intro pfx av k n ns
    rfl

/-- C10 witness: a cached failure body without resources under /apis/v9
makes the call return undefined with no error. -/
theorem c10_missing_resources_is_silent_witness :
    (buildResourceSelfLink [] (fun _ => ⟨404, ⟨none⟩⟩)
        (fun t => if t == "/apis/v9" then some ⟨none⟩ else none)
        "Pod" (some "v9") "x" "ns").result = SelfLinkResult.ok none :=
  (c10_missing_resources_is_silent [] (fun _ => ⟨404, ⟨none⟩⟩)
    (fun t => if t == "/apis/v9" then some ⟨none⟩ else none)
    "Pod" "v9" "x" "ns" ⟨none⟩ (by decide) rfl).1

end K8s
